import Mathlib

/-!
Verification of the data-preparation pipeline of `js/data-loader.js`
(Predicting-Road-Accident-Risk).

Shallow embedding conventions:
* a CSV `Row` is an association list in JS-object key order (first insertion
  wins for position, last write wins for the value);
* JS numbers are modelled by `Option ℚ`: `some q` is a finite value, `none`
  stands for a non-finite result (`NaN` or `±Infinity`); only finiteness of
  these values is ever consumed by the code under verification;
* `jsNumber` models the JS `Number()` coercion on the decimal-literal data
  domain of this pipeline (optional sign, digits, decimal point, exponent,
  surrounding whitespace; the whitespace-only string coerces to `0`);
  hex/octal/binary literals are outside the modelled domain;
* `Math.sqrt` appears only through the standard-deviation of the scaler and
  of the schema statistics; schema statistics store the exact variance
  (`vvar`, with `std = Real.sqrt vvar`) since no claim consumes `std` there,
  and the scaler applies `Real.sqrt` at its single point of use;
* the sizes `Math.floor(nRows*0.7)` and `Math.floor(nRows*0.15)` are modelled
  with exact IEEE-754 double semantics (`roundMantissa` is round-to-nearest,
  ties-to-even at 53 significant bits; `0.7` is the double
  `6305039478318694 · 2⁻⁵³` and `0.15` is `5404319552844595 · 2⁻⁵⁵`);
* the Fisher–Yates index `Math.floor(rnd()*(i+1))` is modelled by exact
  rational arithmetic `⌊s·(i+1)/2147483647⌋`; since `0 ≤ s < 2147483647` the
  index lands in `[0, i]` under both the exact and the double semantics, and
  no claim depends on the individual shuffled positions.
-/

namespace RoadRisk

/-- A parsed CSV row: association list from column name to cell string, in
JS object key order. -/
abbrev Row := List (String × String)

/-- JS object property write `obj[k] = v`: keeps the original key position,
replaces the value; a new key is appended at the end. -/
def upsert : Row → String → String → Row
  | [], k, v => [(k, v)]
  | (k', v') :: rest, k, v =>
    if k' = k then (k', v) :: rest else (k', v') :: upsert rest k v

/-- `Object.keys`. -/
def keysOf (r : Row) : List String := r.map Prod.fst

/-- Whitespace trim on both ends (JS `String.prototype.trim`). -/
def trimChars (cs : List Char) : List Char :=
  ((cs.dropWhile Char.isWhitespace).reverse.dropWhile Char.isWhitespace).reverse

/-- `split(/\r?\n/)`: every line feed separates, consuming one carriage
return immediately before it. -/
def splitLinesChars : List Char → List (List Char)
  | [] => [[]]
  | '\r' :: '\n' :: rest => [] :: splitLinesChars rest
  | '\n' :: rest => [] :: splitLinesChars rest
  | c :: rest =>
    match splitLinesChars rest with
    | [] => [[c]]
    | p :: ps => (c :: p) :: ps

/-- `split(',')`. -/
def splitCommaChars : List Char → List (List Char)
  | [] => [[]]
  | ',' :: rest => [] :: splitCommaChars rest
  | c :: rest =>
    match splitCommaChars rest with
    | [] => [[c]]
    | p :: ps => (c :: p) :: ps

/-- JS `toLowerCase` on the ASCII domain of this dataset. -/
def lowerStr (s : String) : String := String.mk (s.toList.map Char.toLower)

/-- Digit run to a natural number. -/
def digitsToNat (ds : List Char) : ℕ :=
  ds.foldl (fun a c => a * 10 + (c.toNat - 48)) 0

/-- Optional sign at the head of a character stream. -/
def parseSign : List Char → (ℤ × List Char)
  | '+' :: rest => (1, rest)
  | '-' :: rest => (-1, rest)
  | cs => (1, cs)

/-- Decimal-literal core of the JS `Number()` coercion: `[+|-]` digits,
optional fraction, optional exponent; `none` is `NaN`. -/
def jsNumberCore (cs : List Char) : Option ℚ :=
  let sgRest := parseSign cs
  let ipRest := sgRest.2.span Char.isDigit
  let fpRest :=
    match ipRest.2 with
    | '.' :: rest => rest.span Char.isDigit
    | _ => ([], ipRest.2)
  let afterMant :=
    match ipRest.2 with
    | '.' :: _ => fpRest.2
    | other => other
  if ipRest.1.isEmpty ∧ fpRest.1.isEmpty then none
  else
    let mant : ℚ :=
      (digitsToNat ipRest.1 : ℚ) + (digitsToNat fpRest.1 : ℚ) / (10 : ℚ) ^ fpRest.1.length
    match afterMant with
    | [] => some ((sgRest.1 : ℚ) * mant)
    | e :: rest =>
      if e = 'e' ∨ e = 'E' then
        let esgRest := parseSign rest
        let edsRest := esgRest.2.span Char.isDigit
        if edsRest.1.isEmpty ∨ ¬ edsRest.2.isEmpty then none
        else some ((sgRest.1 : ℚ) * mant * (10 : ℚ) ^ (esgRest.1 * (digitsToNat edsRest.1 : ℤ)))
      else none

/-- JS `Number(s)` for a string, keeping only finite outcomes (`none` is
`NaN`/`±Infinity`). The empty and whitespace-only strings coerce to `0`. -/
def jsNumber (s : String) : Option ℚ :=
  let t := trimChars s.toList
  if t = [] then some 0 else jsNumberCore t

/-- JS `Number(x)` where `x` is a possibly missing (`undefined`) property:
`Number(undefined)` is `NaN`. -/
def numOfRaw : Option String → Option ℚ
  | none => none
  | some s => jsNumber s

/-- `#toNumberMaybe` (data-loader.js line 42): empty string and
`null`/`undefined` map to `NaN`, otherwise `Number(v)` filtered to finite. -/
def toNumberMaybe : Option String → Option ℚ
  | none => none
  | some v => if v = "" then none else jsNumber v

/-- JS `String(x)` on a possibly missing property: `String(undefined)` is
the string `"undefined"`. -/
def strOf : Option String → String
  | none => "undefined"
  | some s => s

/-- `text.trim().split(/\r?\n/)`. -/
def jsSplitLines (text : String) : List String :=
  (splitLinesChars (trimChars text.toList)).map String.mk

/-- `line.split(',').map(v => v.trim())`. -/
def splitCommaTrim (line : String) : List String :=
  (splitCommaChars line.toList).map (fun cs => String.mk (trimChars cs))

/-- One record object: `headers.forEach((h,i) => obj[h] = cells[i] ?? '')`. -/
def mkRow (headers : List String) (cells : List String) : Row :=
  headers.enum.foldl (fun obj p => upsert obj p.2 (cells.getD p.1 "")) []

/-- Header cells of the source text (first line of the trimmed split). -/
def headersOf (text : String) : List String :=
  match jsSplitLines text with
  | [] => []
  | h :: _ => splitCommaTrim h

/-- Record lines of the source text (all lines after the header). -/
def tailLines (text : String) : List String :=
  match jsSplitLines text with
  | [] => []
  | _ :: t => t

/-- `#parseCSV` (data-loader.js lines 31–40). Total: the empty text yields
the empty row list (the source has no failure path here). -/
def parseCSV (text : String) : List Row :=
  (tailLines text).map (fun line => mkRow (headersOf text) (splitCommaTrim line))

inductive FType
  | numeric
  | boolean
  | categorical
deriving DecidableEq, Repr

/-- Per-column statistics of `#inferSchema` (lines 84–90). The source stores
`std = Math.sqrt(vvar)`; the exact variance is kept instead since no claim
consumes the schema-level `std`. -/
structure NumStats where
  statMin : ℚ
  statMax : ℚ
  mean : ℚ
  vvar : ℚ
  count : ℕ
deriving DecidableEq, Repr

structure Feature where
  type : FType
  stats : Option NumStats := none
  values : List String := []
deriving DecidableEq, Repr

structure Schema where
  features : List (String × Feature)
  target : String
deriving DecidableEq, Repr

/-- `knownCategoricals` (lines 55–58). -/
def knownCategoricals : List String :=
  ["road_type", "lighting", "weather", "time_of_day",
   "road_signs_present", "public_road", "holiday", "school_season"]

/-- `knownNumeric` (lines 59–61). -/
def knownNumeric : List String :=
  ["num_lanes", "curvature", "speed_limit", "num_reported_accidents"]

/-- JS `Set` iteration-order deduplication, continued from an accumulator. -/
def jsDedupFrom (acc : List String) (l : List String) : List String :=
  l.foldl (fun a v => if v ∈ a then a else a ++ [v]) acc

/-- JS `new Set(l)` as a list in first-occurrence order. -/
def jsDedup (l : List String) : List String := jsDedupFrom [] l

/-- `this.raw.slice(0, Math.min(5000, this.raw.length)).map(r => r[col])`
(line 73). -/
def sampleOf (rows : List Row) (col : String) : List (Option String) :=
  (rows.take (min 5000 rows.length)).map (fun r => r.lookup col)

/-- Fraction of sampled values with `Number.isFinite(Number(v))` (line 74);
`0/0 = 0` here where JS gets `NaN`, and neither exceeds `0.9`. -/
def numericRatio (sample : List (Option String)) : ℚ :=
  ((sample.filter (fun v => (numOfRaw v).isSome)).length : ℚ) / (sample.length : ℚ)

/-- `new Set(sampleVals.map(v => String(v))).size` (line 75). -/
def distinctCount (sample : List (Option String)) : ℕ :=
  (jsDedup (sample.map strOf)).length

/-- Column classification of `#inferSchema` (lines 66–78): default
`numeric`, known-list lookups, then the bounded sniff for unknown columns. -/
def classifyCol (col : String) (sample : List (Option String)) : FType :=
  let t1 := if col ∈ knownCategoricals then FType.categorical else FType.numeric
  let t2 := if col ∈ knownNumeric then FType.numeric else t1
  if col ∈ knownCategoricals ∨ col ∈ knownNumeric then t2
  else
    let t3 := if numericRatio sample > 9 / 10 then FType.numeric else t2
    if distinctCount sample ≤ 10 then FType.categorical else t3

/-- `Math.min(...arr)` over the collected finite values; the `[]` case stands
in for `Infinity` and is only produced for a column with no finite value,
where no claim consumes it. -/
def jsMinQ (l : List ℚ) : ℚ :=
  match l with
  | [] => 0
  | h :: t => t.foldl min h

/-- `Math.max(...arr)`, same conventions as `jsMinQ`. -/
def jsMaxQ (l : List ℚ) : ℚ :=
  match l with
  | [] => 0
  | h :: t => t.foldl max h

/-- Schema statistics for a numeric column (lines 86–90): mean uses
`arr.reduce(..)/arr.length || 0` and the variance denominator is
`Math.max(1, arr.length - 1)`. -/
def numStatsOf (vals : List ℚ) : NumStats :=
  let n := vals.length
  let mean : ℚ := if n = 0 then 0 else vals.sum / (n : ℚ)
  let vvar : ℚ := ((vals.map (fun v => (v - mean) ^ 2)).sum) / ((max 1 (n - 1) : ℕ) : ℚ)
  { statMin := jsMinQ vals, statMax := jsMaxQ vals, mean := mean, vvar := vvar, count := n }

/-- Distinct observed non-empty, non-`"undefined"` string values of a column
(lines 92–93). -/
def obsVals (rows : List Row) (col : String) : List String :=
  (jsDedup (rows.map (fun r => strOf (r.lookup col)))).filter
    (fun v => v != "" && v != "undefined")

/-- Second pass of `#inferSchema` (lines 84–101) for one column, fused with
the classification result (the two source loops are per-key independent). -/
def finalizeFeature (rows : List Row) (col : String) (t : FType) : Feature :=
  match t with
  | FType.numeric =>
    let arr := rows.filterMap (fun r => toNumberMaybe (r.lookup col))
    { type := FType.numeric, stats := some (numStatsOf arr), values := [] }
  | _ =>
    let vals := obsVals rows col
    if (vals.map (fun v => lowerStr v)).all (fun v => v == "true" || v == "false") then
      { type := FType.boolean, stats := none, values := ["True", "False"] }
    else
      { type := FType.categorical, stats := none, values := vals }

/-- `#inferSchema` (lines 48–105). The thrown `Error` is modelled as
`Except.error` with the source's message. -/
def inferSchema (rows : List Row) : Except String Schema :=
  let target := "accident_risk"
  match rows with
  | [] => Except.error ("Target \"" ++ target ++ "\" not found in CSV.")
  | r0 :: _ =>
    if (r0.lookup target).isNone then
      Except.error ("Target \"" ++ target ++ "\" not found in CSV.")
    else
      let cols := (keysOf r0).filter (fun k => k != target)
      Except.ok
        { features := cols.map (fun col =>
            (col, finalizeFeature rows col (classifyCol col (sampleOf rows col)))),
          target := target }

/-- Projection out of a successful `inferSchema` (junk on error). -/
def getSchema (e : Except String Schema) : Schema :=
  match e with
  | Except.ok s => s
  | Except.error _ => { features := [], target := "" }

/-- Encoded cells of one feature for one row (`prepareMatrices`,
lines 192–201); cells are `Option ℚ` with `none` for `NaN`. -/
def encodeFeat (r : Row) (k : String) (f : Feature) : List (Option ℚ) :=
  match f.type with
  | FType.numeric => [toNumberMaybe (r.lookup k)]
  | FType.boolean => [some (if strOf (r.lookup k) = "True" then 1 else 0)]
  | FType.categorical =>
    f.values.map (fun v => some (if strOf (r.lookup k) = v then 1 else 0))

/-- One encoded row, features in schema iteration order. -/
def encodeRow (feats : List (String × Feature)) (r : Row) : List (Option ℚ) :=
  feats.flatMap (fun kf => encodeFeat r kf.1 kf.2)

/-- The raw (pre-scaling) matrix `X` of `prepareMatrices` (lines 189–203). -/
def buildX (feats : List (String × Feature)) (rows : List Row) : List (List (Option ℚ)) :=
  rows.map (encodeRow feats)

/-- The target vector: `y.push([Number(r[target])])` (line 204); the
singleton-array shape is dropped, keeping the value. -/
def buildY (target : String) (rows : List Row) : List (Option ℚ) :=
  rows.map (fun r => numOfRaw (r.lookup target))

/-- Encoded width contributed by one feature. -/
def featWidth (f : Feature) : ℕ :=
  match f.type with
  | FType.categorical => f.values.length
  | _ => 1

/-- Total encoded width, features in schema iteration order. -/
def sumWidths (feats : List (String × Feature)) : ℕ :=
  (feats.map (fun kf => featWidth kf.2)).sum

/-- `featNames` built by `prepareMatrices` (lines 176–186). -/
def buildFeatNames (feats : List (String × Feature)) : List String :=
  feats.flatMap (fun kf =>
    match kf.2.type with
    | FType.categorical => kf.2.values.map (fun v => kf.1 ++ "__" ++ v)
    | _ => [kf.1])

/-- `this.encoders` built by `prepareMatrices` (lines 175–186);
`(f.values||[]).map(v => String(v))` is `f.values` (all values are strings). -/
def buildEncoders (feats : List (String × Feature)) : List (String × List String) :=
  feats.filterMap (fun kf =>
    match kf.2.type with
    | FType.categorical => some (kf.1, kf.2.values)
    | _ => none)

/-- The `numericColIdx` offset walk of `prepareMatrices` (lines 212–221),
with the running column pointer made explicit. -/
def numericColIdxAux : List (String × Feature) → ℕ → List ℕ
  | [], _ => []
  | kf :: rest, ptr =>
    match kf.2.type with
    | FType.categorical => numericColIdxAux rest (ptr + kf.2.values.length)
    | _ => ptr :: numericColIdxAux rest (ptr + 1)

/-- Encoded column indices that originate from numeric or boolean features. -/
def numericColIdx (feats : List (String × Feature)) : List ℕ :=
  numericColIdxAux feats 0

/-- `Xmat.map(r => r[c]).filter(Number.isFinite)` (line 225): the finite
values of encoded column `c` across all rows (out-of-range reads are
`undefined`, hence non-finite). -/
def finiteCol (X : List (List (Option ℚ))) (c : ℕ) : List ℚ :=
  X.filterMap (fun row => row.getD c none)

/-- Scaler statistics for one encoded column (lines 224–230). -/
structure ColStats where
  statMin : ℚ
  statMax : ℚ
  mean : ℚ
  vvar : ℚ
deriving DecidableEq

/-- Fit of the scaler statistics for column `c` (lines 224–230); the source
stores `std = Math.sqrt(vvar)`, applied through `Real.sqrt` at the single
point of use. -/
def fitColStats (X : List (List (Option ℚ))) (c : ℕ) : ColStats :=
  let col := finiteCol X c
  let mean : ℚ := col.sum / ((max 1 col.length : ℕ) : ℚ)
  { statMin := jsMinQ col, statMax := jsMaxQ col, mean := mean,
    vvar := ((col.map (fun v => (v - mean) ^ 2)).sum) / ((max 1 (col.length - 1) : ℕ) : ℚ) }

/-- Scaling of one to-be-scaled cell (lines 232–244): non-finite cells become
exactly `0`; `(st.max - st.min) || 1` and `st.std || 1` are the zero-guards. -/
noncomputable def applyScaleCell (scalerType : String) (st : ColStats) (cell : Option ℚ) : ℝ :=
  match cell with
  | none => 0
  | some v =>
    if scalerType = "minmax" then
      (((v - st.statMin) / (if st.statMax - st.statMin = 0 then 1 else st.statMax - st.statMin) : ℚ) : ℝ)
    else
      ((v : ℝ) - (st.mean : ℝ)) /
        (if Real.sqrt (st.vvar : ℝ) = 0 then 1 else Real.sqrt (st.vvar : ℝ))

/-- Per-row scaling pass with the running column index made explicit. The
source mutates `Xmat[i][c]` for each `c` of `numericColIdx`; since that list
is strictly increasing (each entry is visited once), the per-cell membership
branch below is the same transformation. -/
noncomputable def scaleRowAux (scalerType : String) (statsOf : ℕ → ColStats)
    (nIdx : List ℕ) : ℕ → List (Option ℚ) → List ℝ
  | _, [] => []
  | c, cell :: rest =>
    (if c ∈ nIdx then applyScaleCell scalerType (statsOf c) cell
     else ((cell.getD 0 : ℚ) : ℝ)) :: scaleRowAux scalerType statsOf nIdx (c + 1) rest

/-- The scaled matrix of `prepareMatrices` (lines 207–245): statistics are
fitted on the pre-scaling matrix, then applied in place. -/
noncomputable def scaleX (scalerType : String) (feats : List (String × Feature))
    (X : List (List (Option ℚ))) : List (List ℝ) :=
  X.map (fun row => scaleRowAux scalerType (fun c => fitColStats X c) (numericColIdx feats) 0 row)

/-- Spec-side scaling formula, following the claim's words: statistics
`{min, max, mean, std}` fitted over the finite values of the column; minmax
sends a finite `v` to `(v - min)/d` with `d = (max - min)` if nonzero else
`1`; standard sends it to `(v - mean)/d` with `d = std` if nonzero else `1`;
a non-finite cell becomes exactly `0`. -/
noncomputable def specScaleCell (kind : String) (colFinite : List ℚ) (cell : Option ℚ) : ℝ :=
  match cell with
  | none => 0
  | some v =>
    let mn : ℚ := (colFinite.min?).getD 0
    let mx : ℚ := (colFinite.max?).getD 0
    let mean : ℚ := colFinite.sum / (colFinite.length : ℚ)
    let sd : ℝ := Real.sqrt
      ((((colFinite.map (fun w => (w - mean) ^ 2)).sum / ((max 1 (colFinite.length - 1) : ℕ) : ℚ) : ℚ)) : ℝ)
    if kind = "minmax" then
      (((v - mn) / (if mx - mn = 0 then 1 else mx - mn) : ℚ) : ℝ)
    else if kind = "standard" then
      ((v : ℝ) - (mean : ℝ)) / (if sd = 0 then 1 else sd)
    else 0

/-- The linear congruential step `s = (s*16807) % 2147483647` (line 298). -/
def lcgNext (s : ℕ) : ℕ := (s * 16807) % 2147483647

/-- `[a[i],a[j]] = [a[j],a[i]]` — the Fisher–Yates swap; out-of-range
indices leave the list unchanged (never reached by the caller). -/
def listSwap {α : Type} (a : List α) (i j : ℕ) : List α :=
  match a.get? i, a.get? j with
  | some x, some y => (a.set i y).set j x
  | _, _ => a

/-- The Fisher–Yates loop of `#shuffle` (lines 296–303), counting the loop
variable `i = n+1` down to `1`; `j = ⌊rnd()·(i+1)⌋` in exact rational
arithmetic (see the module docstring). -/
def shuffleAux {α : Type} (s : ℕ) : ℕ → List α → List α
  | 0, a => a
  | n + 1, a =>
    let s' := lcgNext s
    let j := (s' * (n + 2)) / 2147483647
    shuffleAux s' n (listSwap a (n + 1) j)

/-- `#shuffle(a, seed)`. -/
def jsShuffle {α : Type} (a : List α) (seed : ℕ) : List α :=
  shuffleAux seed (a.length - 1) a

/-- Round `x / 2^s` to the nearest integer, ties to even. -/
def rne (x : ℕ) (s : ℕ) : ℕ :=
  let q := x / 2 ^ s
  let r := x % 2 ^ s
  if 2 * r < 2 ^ s then q
  else if 2 * r > 2 ^ s then q + 1
  else if q % 2 = 0 then q else q + 1

/-- Fuel-driven binary logarithm (structural recursion, so that concrete
instances reduce inside the kernel). -/
def log2Aux : ℕ → ℕ → ℕ
  | 0, _ => 0
  | fuel + 1, n => if n ≤ 1 then 0 else 1 + log2Aux fuel (n / 2)

/-- `⌊log₂ n⌋` (`0` at `0`). -/
def natLog2 (n : ℕ) : ℕ := log2Aux n n

/-- IEEE-754 binary64 rounding of the integer `p` (round to nearest, ties to
even, 53 significant bits); `p` stands for a product scaled by a fixed power
of two, so the result is returned as an exact integer again. -/
def roundMantissa (p : ℕ) : ℕ :=
  if p < 2 ^ 53 then p
  else rne p (natLog2 p - 52) * 2 ^ (natLog2 p - 52)

/-- `Math.floor(n * c)` where `c` is the double `m · 2⁻ˢᶜ` and `n` an
integer-valued double: round the exact product to binary64, then floor. -/
def jsFloorMul (m sc : ℕ) (n : ℕ) : ℕ :=
  roundMantissa (n * m) / 2 ^ sc

/-- `Math.floor(nRows * 0.7)` (line 251): `0.7` is `6305039478318694·2⁻⁵³`. -/
def nTrainJs (n : ℕ) : ℕ := jsFloorMul 6305039478318694 53 n

/-- `Math.floor(nRows * 0.15)` (line 252): `0.15` is `5404319552844595·2⁻⁵⁵`. -/
def nValJs (n : ℕ) : ℕ := jsFloorMul 5404319552844595 55 n

/-- The split of `prepareMatrices` (lines 249–255): shuffled indices sliced
into train/validation/test. -/
def prepareSplit (n : ℕ) (seed : ℕ) : List ℕ × List ℕ × List ℕ :=
  let idx := jsShuffle (List.range n) seed
  let nT := nTrainJs n
  let nV := nValJs n
  (idx.take nT, (idx.drop nT).take nV, idx.drop (nT + nV))

/-- Per-feature filter descriptor entries produced by the UI (§4.3). -/
inductive FilterSpec
  | num (lo hi : ℚ)
  | bool (mode : String)
  | cat (set : List String)
deriving DecidableEq

/-- One feature's filter check inside `indicesByFilters` (lines 157–165);
a shape-mismatched entry constrains nothing (JS reads `undefined` fields and
every comparison with `undefined` rejects nothing here). -/
def matchOne (f : Feature) (flt : FilterSpec) (v : Option String) : Bool :=
  match f.type, flt with
  | FType.numeric, FilterSpec.num lo hi =>
    match toNumberMaybe v with
    | none => false
    | some n => decide (lo ≤ n) && decide (n ≤ hi)
  | FType.boolean, FilterSpec.bool mode => mode == "any" || strOf v == mode
  | FType.categorical, FilterSpec.cat set => set.isEmpty || set.contains (strOf v)
  | _, _ => true

/-- Row predicate of `indicesByFilters` (lines 152–166): a conjunction over
every feature with a present filter entry. -/
def matchRow (feats : List (String × Feature)) (filters : String → Option FilterSpec)
    (r : Row) : Bool :=
  feats.all (fun kf =>
    match filters kf.1 with
    | none => true
    | some flt => matchOne kf.2 flt (r.lookup kf.1))

/-- `indicesByFilters` (lines 147–170): indices of passing rows in original
order. -/
def indicesByFilters (feats : List (String × Feature))
    (filters : String → Option FilterSpec) (rows : List Row) : List ℕ :=
  (List.range rows.length).filter (fun i => matchRow feats filters (rows.getD i []))

/-- `this.split`. -/
structure SplitIdx where
  idxTrain : List ℕ
  idxVal : List ℕ
  idxTest : List ℕ
deriving DecidableEq

/-- `this.scalers` after a successful prepare (line 208, 229). -/
structure ScalersState where
  stype : String
  stats : List (ℕ × ColStats)
deriving DecidableEq

/-- The mutable `DataLoader` fields touched by `prepareMatrices`. -/
structure DLState where
  raw : Option (List Row)
  schema : Option Schema
  encoders : List (String × List String)
  scalers : Option ScalersState
  X : Option (List (List ℝ))
  y : Option (List (Option ℚ))
  split : SplitIdx

/-- `prepareMatrices(scalerType, seed)` as a state transformer returning the
post-call state and a success flag. The mutation order follows the source:
`this.encoders = {}` (line 175) happens before the first possible throw
(reading `this.schema.features`, line 177, when the schema is missing); the
encoder table is then rebuilt before the second possible throw (iterating
`this.raw`, line 190, when the raw rows are missing); `scalers`, `X`, `y`
and `split` are only assigned after both points. On a throw the object keeps
every mutation made so far. -/
noncomputable def prepareMatricesSt (scalerType : String) (seed : ℕ) (s : DLState) :
    DLState × Bool :=
  let s1 : DLState := { s with encoders := [] }
  match s.schema with
  | none => (s1, false)
  | some sch =>
    let s2 : DLState := { s1 with encoders := buildEncoders sch.features }
    match s.raw with
    | none => (s2, false)
    | some rows =>
      let X := buildX sch.features rows
      let sp := prepareSplit rows.length seed
      ({ s2 with
          scalers := some { stype := scalerType,
                            stats := (numericColIdx sch.features).map (fun c => (c, fitColStats X c)) },
          X := some (scaleX scalerType sch.features X),
          y := some (buildY sch.target rows),
          split := { idxTrain := sp.1, idxVal := sp.2.1, idxTest := sp.2.2 } }, true)

/-- Cell access `M[i][c]` with out-of-range reads reported as `none`. -/
def cellAt {α : Type} (M : List (List α)) (i c : ℕ) : Option α :=
  (M.get? i).bind (fun row => row.get? c)

/-- Encoded column offset of the (first occurrence of) feature `k`. -/
def colOffset : List (String × Feature) → String → ℕ
  | [], _ => 0
  | kf :: rest, k => if kf.1 = k then 0 else featWidth kf.2 + colOffset rest k

/-! ### Structural lemmas about the encoder -/

theorem encodeFeat_length (r : Row) (k : String) (f : Feature) :
    (encodeFeat r k f).length = featWidth f := by
  cases h : f.type <;> simp [encodeFeat, featWidth, h]

theorem encodeRow_length (feats : List (String × Feature)) (r : Row) :
    (encodeRow feats r).length = sumWidths feats := by
  induction feats with
  | nil => rfl
  | cons kf rest ih =>
    simp [encodeRow, sumWidths, List.flatMap_cons, encodeFeat_length] at *
    simp [ih]

theorem buildFeatNames_length (feats : List (String × Feature)) :
    (buildFeatNames feats).length = sumWidths feats := by
  induction feats with
  | nil => rfl
  | cons kf rest ih =>
    cases h : kf.2.type <;>
      simp [buildFeatNames, sumWidths, List.flatMap_cons, featWidth, h] at * <;>
      omega

/-! ### Claim C3 -/

/-- Claim C3: the encoded matrix built by `prepareMatrices` has width equal
to the sum, over features in schema iteration order, of `1` for each
numeric/boolean feature and the category count for each categorical feature;
every row has exactly that length, which also equals the length of the
returned `featNames` list. -/
theorem c3_width_invariant (feats : List (String × Feature)) (rows : List Row) :
    (buildFeatNames feats).length = sumWidths feats
    ∧ ∀ row ∈ buildX feats rows, row.length = sumWidths feats := by
  refine ⟨buildFeatNames_length feats, ?_⟩
  intro row hrow
  rcases List.mem_map.1 hrow with ⟨r, _, rfl⟩
  exact encodeRow_length feats r

/-- Witness for C3 at a concrete schema and row set. -/
theorem c3_width_invariant_witness :
    ((buildFeatNames [("a", ⟨FType.numeric, none, []⟩)]).length
        = sumWidths [("a", ⟨FType.numeric, none, []⟩)]
      ∧ [some (1 : ℚ)] ∈ buildX [("a", ⟨FType.numeric, none, []⟩)] [[("a", "1")]])
    ∧ ([some (1 : ℚ)] : List (Option ℚ)).length = sumWidths [("a", ⟨FType.numeric, none, []⟩)] :=
  ⟨⟨(c3_width_invariant [("a", ⟨FType.numeric, none, []⟩)] [[("a", "1")]]).1,
      by with_unfolding_all decide⟩,
    (c3_width_invariant [("a", ⟨FType.numeric, none, []⟩)] [[("a", "1")]]).2
      [some (1 : ℚ)] (by with_unfolding_all decide)⟩

/-! ### Claim C4 -/

/-- Claim C4: for a column outside the known-categorical and known-numeric
lists, schema inference sniffs the first `min(5000, N)` rows; it classifies
the column numeric when the finite-parse fraction exceeds `0.9`, and the
classification is overridden to categorical whenever the distinct sampled
string-value count is at most `10` (the categorical override wins when both
conditions hold). -/
theorem c4_sniff_classification (col : String) (rows : List Row)
    (hc : col ∉ knownCategoricals) (hn : col ∉ knownNumeric) :
    (distinctCount (sampleOf rows col) ≤ 10 →
      classifyCol col (sampleOf rows col) = FType.categorical)
    ∧ (numericRatio (sampleOf rows col) > 9 / 10 →
        10 < distinctCount (sampleOf rows col) →
      classifyCol col (sampleOf rows col) = FType.numeric)
    ∧ sampleOf rows col = (rows.take (min 5000 rows.length)).map (fun r => r.lookup col) := by
  refine ⟨?_, ?_, rfl⟩
  · intro h10
    simp only [classifyCol]
    rw [if_neg (by simp [hc, hn]), if_pos h10]
  · intro hratio h10
    simp only [classifyCol]
    rw [if_neg (by simp [hc, hn]), if_neg (by omega), if_pos hratio]

/-- Witness for C4: eleven distinct numeric-looking values give the numeric
classification; the sample-shape conjunct and the (vacuous) override
conjunct are instantiated on the same data. -/
theorem c4_sniff_classification_witness :
    ("mystery" ∉ knownCategoricals ∧ "mystery" ∉ knownNumeric)
    ∧ ((distinctCount (sampleOf
          [[("mystery", "0")], [("mystery", "1")], [("mystery", "2")], [("mystery", "3")],
           [("mystery", "4")], [("mystery", "5")], [("mystery", "6")], [("mystery", "7")],
           [("mystery", "8")], [("mystery", "9")], [("mystery", "10")]] "mystery") ≤ 10 →
        classifyCol "mystery" (sampleOf
          [[("mystery", "0")], [("mystery", "1")], [("mystery", "2")], [("mystery", "3")],
           [("mystery", "4")], [("mystery", "5")], [("mystery", "6")], [("mystery", "7")],
           [("mystery", "8")], [("mystery", "9")], [("mystery", "10")]] "mystery")
          = FType.categorical)
      ∧ (numericRatio (sampleOf
          [[("mystery", "0")], [("mystery", "1")], [("mystery", "2")], [("mystery", "3")],
           [("mystery", "4")], [("mystery", "5")], [("mystery", "6")], [("mystery", "7")],
           [("mystery", "8")], [("mystery", "9")], [("mystery", "10")]] "mystery") > 9 / 10 →
          10 < distinctCount (sampleOf
          [[("mystery", "0")], [("mystery", "1")], [("mystery", "2")], [("mystery", "3")],
           [("mystery", "4")], [("mystery", "5")], [("mystery", "6")], [("mystery", "7")],
           [("mystery", "8")], [("mystery", "9")], [("mystery", "10")]] "mystery") →
        classifyCol "mystery" (sampleOf
          [[("mystery", "0")], [("mystery", "1")], [("mystery", "2")], [("mystery", "3")],
           [("mystery", "4")], [("mystery", "5")], [("mystery", "6")], [("mystery", "7")],
           [("mystery", "8")], [("mystery", "9")], [("mystery", "10")]] "mystery")
          = FType.numeric)
      ∧ sampleOf
          [[("mystery", "0")], [("mystery", "1")], [("mystery", "2")], [("mystery", "3")],
           [("mystery", "4")], [("mystery", "5")], [("mystery", "6")], [("mystery", "7")],
           [("mystery", "8")], [("mystery", "9")], [("mystery", "10")]] "mystery"
        = ([[("mystery", "0")], [("mystery", "1")], [("mystery", "2")], [("mystery", "3")],
           [("mystery", "4")], [("mystery", "5")], [("mystery", "6")], [("mystery", "7")],
           [("mystery", "8")], [("mystery", "9")], [("mystery", "10")]].take
            (min 5000 ([[("mystery", "0")], [("mystery", "1")], [("mystery", "2")],
              [("mystery", "3")], [("mystery", "4")], [("mystery", "5")], [("mystery", "6")],
              [("mystery", "7")], [("mystery", "8")], [("mystery", "9")],
              [("mystery", "10")]] : List Row).length)).map (fun r => r.lookup "mystery")) :=
  ⟨⟨by decide, by decide⟩,
    c4_sniff_classification "mystery"
      [[("mystery", "0")], [("mystery", "1")], [("mystery", "2")], [("mystery", "3")],
       [("mystery", "4")], [("mystery", "5")], [("mystery", "6")], [("mystery", "7")],
       [("mystery", "8")], [("mystery", "9")], [("mystery", "10")]]
      (by decide) (by decide)⟩

/-! ### Claim C7 -/

/-- Counterexample for C7: on the empty source text the parser does not
raise; it returns the empty row list. -/
theorem c7_parser_counterexample : parseCSV "" = ([] : List Row) := rfl

/-- Claim C7 (amended): the parser itself returns `[]` on the empty text;
the empty input is rejected one stage later, when schema inference throws
the missing-target error, so the load pipeline as a whole still fails on
empty input. -/
theorem c7_empty_text_pipeline :
    parseCSV "" = ([] : List Row)
    ∧ inferSchema (parseCSV "") =
        Except.error "Target \"accident_risk\" not found in CSV." :=
  ⟨rfl, rfl⟩

/-! ### Claim C9 -/

/-- Counterexample for C9: an empty-string target cell yields the finite
value `0` in the target vector (JS `Number('') === 0`), not `NaN` as the
claim states. -/
theorem c9_target_counterexample :
    buildY "accident_risk" [[("accident_risk", "")]] = [some (0 : ℚ)] := by
  with_unfolding_all decide

/-- Claim C9 (amended): `y[i]` is the raw JS `Number` coercion of the row's
target cell — `NaN` when the value does not coerce to a finite number —
except that the empty (or whitespace-only) string coerces to `0`, not `NaN`. -/
theorem c9_target_vector (target : String) (rows : List Row) (i : ℕ) (r : Row)
    (h : rows.get? i = some r) :
    (buildY target rows).get? i = some (numOfRaw (r.lookup target))
    ∧ numOfRaw (some "") = some (0 : ℚ)
    ∧ numOfRaw (some "abc") = none := by
  refine ⟨?_, by with_unfolding_all decide, by with_unfolding_all decide⟩
  rw [buildY, List.get?_map, h]
  rfl

/-! ### Claim C5 -/

theorem matchRow_empty (feats : List (String × Feature)) (r : Row) :
    matchRow feats (fun _ => none) r = true := by
  simp [matchRow]

theorem matchRow_of_matchRow_add (feats : List (String × Feature))
    (filters : String → Option FilterSpec) (k0 : String) (spec : FilterSpec)
    (h : filters k0 = none) (r : Row)
    (hm : matchRow feats (fun k => if k = k0 then some spec else filters k) r = true) :
    matchRow feats filters r = true := by
  rw [matchRow, List.all_eq_true] at *
  intro kf hkf
  have hk := hm kf hkf
  by_cases hkey : kf.1 = k0
  · simp only [hkey, h]
  · simpa [hkey] using hk

/-- Claim C5: filtering with the empty filter descriptor returns all row
indices in original order, and adding any per-feature constraint entry to a
descriptor can only shrink the resulting index set (matching is a
conjunction over the features with a present entry). -/
theorem c5_filter_monotone (feats : List (String × Feature)) (rows : List Row)
    (filters : String → Option FilterSpec) (k0 : String) (spec : FilterSpec)
    (h : filters k0 = none) :
    indicesByFilters feats (fun _ => none) rows = List.range rows.length
    ∧ indicesByFilters feats (fun k => if k = k0 then some spec else filters k) rows
        ⊆ indicesByFilters feats filters rows := by
  constructor
  · exact List.filter_eq_self.2 (fun i _ => matchRow_empty feats (rows.getD i []))
  · intro i hi
    rw [indicesByFilters, List.mem_filter] at *
    exact ⟨hi.1, matchRow_of_matchRow_add feats filters k0 spec h (rows.getD i []) hi.2⟩

/-- Witness for C5: a numeric range entry on `speed_limit` added to the
empty descriptor. -/
theorem c5_filter_monotone_witness :
    ((fun _ => (none : Option FilterSpec)) "speed_limit" = none)
    ∧ (indicesByFilters [("speed_limit", ⟨FType.numeric, none, []⟩)]
          (fun _ => none) [[("speed_limit", "50")], [("speed_limit", "90")]]
        = List.range ([[("speed_limit", "50")], [("speed_limit", "90")]] : List Row).length
      ∧ indicesByFilters [("speed_limit", ⟨FType.numeric, none, []⟩)]
          (fun k => if k = "speed_limit" then some (FilterSpec.num 0 60) else none)
          [[("speed_limit", "50")], [("speed_limit", "90")]]
        ⊆ indicesByFilters [("speed_limit", ⟨FType.numeric, none, []⟩)]
          (fun _ => none) [[("speed_limit", "50")], [("speed_limit", "90")]]) :=
  ⟨rfl,
    c5_filter_monotone [("speed_limit", ⟨FType.numeric, none, []⟩)]
      [[("speed_limit", "50")], [("speed_limit", "90")]] (fun _ => none)
      "speed_limit" (FilterSpec.num 0 60) rfl⟩

/-! ### Claim C8 -/

theorem keysOf_upsert (o : Row) (h : String) (v : String) :
    keysOf (upsert o h v) =
      if h ∈ keysOf o then keysOf o else keysOf o ++ [h] := by
  induction o with
  | nil => simp [upsert, keysOf]
  | cons kv rest ih =>
    by_cases hk : kv.1 = h
    · simp [upsert, keysOf, hk]
    · simp only [upsert, keysOf, List.mem_cons] at *
      rw [if_neg hk]
      simp only [List.map_cons]
      rw [ih]
      have hk2 : ¬ h = kv.1 := fun e => hk e.symm
      by_cases hmem : h ∈ rest.map Prod.fst
      · simp [hmem]
      · simp [hmem, hk2]

theorem keysOf_mkRowAux (cells : List String) (ps : List (ℕ × String)) (obj : Row) :
    keysOf (ps.foldl (fun o p => upsert o p.2 (cells.getD p.1 "")) obj)
      = jsDedupFrom (keysOf obj) (ps.map Prod.snd) := by
  induction ps generalizing obj with
  | nil => rfl
  | cons p rest ih =>
    rw [List.foldl_cons, ih, List.map_cons]
    show jsDedupFrom _ _ = List.foldl _ _ _
    rw [List.foldl_cons]
    rw [keysOf_upsert]
    rfl

theorem keysOf_mkRow (headers : List String) (cells : List String) :
    keysOf (mkRow headers cells) = jsDedup headers := by
  rw [mkRow, keysOf_mkRowAux, List.enum_map_snd]
  rfl

theorem upsert_of_not_mem (o : Row) (h : String) (v : String)
    (hh : h ∉ keysOf o) : upsert o h v = o ++ [(h, v)] := by
  induction o with
  | nil => rfl
  | cons kv rest ih =>
    simp only [keysOf, List.map_cons, List.mem_cons] at hh
    push_neg at hh
    simp only [upsert]
    rw [if_neg (fun e => hh.1 e.symm), ih (by simpa [keysOf] using hh.2)]
    rfl

theorem mkRowAux_of_nodup (cells : List String) (ps : List (ℕ × String)) (obj : Row)
    (hnd : (ps.map Prod.snd).Nodup) (hdisj : ∀ p ∈ ps, p.2 ∉ keysOf obj) :
    ps.foldl (fun o p => upsert o p.2 (cells.getD p.1 "")) obj
      = obj ++ ps.map (fun p => (p.2, cells.getD p.1 "")) := by
  induction ps generalizing obj with
  | nil => simp
  | cons p rest ih =>
    rw [List.foldl_cons, upsert_of_not_mem _ _ _ (hdisj p (by simp))]
    rw [List.map_cons] at hnd
    have hdisj2 : ∀ q ∈ rest, q.2 ∉ keysOf (obj ++ [(p.2, cells.getD p.1 "")]) := by
      intro q hq
      simp only [keysOf, List.map_append, List.mem_append]
      rintro (hc | hc)
      · exact hdisj q (by simp [hq]) hc
      · simp only [List.map_cons, List.map_nil, List.mem_singleton] at hc
        exact (List.nodup_cons.1 hnd).1 (hc ▸ List.mem_map_of_mem Prod.snd hq)
    rw [ih (obj ++ [(p.2, cells.getD p.1 "")]) hnd.of_cons hdisj2, List.map_cons,
      List.append_assoc]
    rfl

theorem mkRow_of_nodup (headers : List String) (cells : List String)
    (hnd : headers.Nodup) :
    mkRow headers cells = headers.enum.map (fun p => (p.2, cells.getD p.1 "")) := by
  rw [mkRow, mkRowAux_of_nodup cells headers.enum []
    (by rw [List.enum_map_snd]; exact hnd) (by simp [keysOf])]
  rfl

theorem lookup_enum_map (cells : List String) (es : List (ℕ × String))
    (hnd : (es.map Prod.snd).Nodup) :
    ∀ j i hname, es.get? j = some (i, hname) →
      (es.map (fun p => (p.2, cells.getD p.1 ""))).lookup hname = some (cells.getD i "") := by
  induction es with
  | nil => intro j i hname hj; simp at hj
  | cons p rest ih =>
    intro j i hname hj
    rw [List.map_cons] at hnd
    match j with
    | 0 =>
      simp only [List.get?] at hj
      cases hj
      simp [List.lookup]
    | j' + 1 =>
      simp only [List.get?] at hj
      have hmem : hname ∈ rest.map Prod.snd := by
        have h1 : (i, hname) ∈ rest := List.get?_mem hj
        simpa using List.mem_map_of_mem Prod.snd h1
      have hne : p.2 ≠ hname := fun e => (List.nodup_cons.1 hnd).1 (e ▸ hmem)
      have hb : (hname == p.2) = false := beq_eq_false_iff_ne.2 (fun e => hne e.symm)
      simp only [List.map_cons, List.lookup, hb]
      exact ih hnd.of_cons j' i hname hj

/-- Claim C8: the parsed row count is the (trimmed) line count minus one
(header excluded); every parsed row's key list is exactly the header list
(deduplicated in first-occurrence order, hence the header's column set); and
with distinct headers the cells align positionally, a missing trailing cell
mapping to the empty string. -/
theorem c8_parser_shape (text : String) :
    (parseCSV text).length = (jsSplitLines text).length - 1
    ∧ (∀ row ∈ parseCSV text, keysOf row = jsDedup (headersOf text))
    ∧ ((headersOf text).Nodup →
        ∀ line ∈ tailLines text, ∀ i hname, (headersOf text).get? i = some hname →
          (mkRow (headersOf text) (splitCommaTrim line)).lookup hname
            = some ((splitCommaTrim line).getD i "")) := by
  refine ⟨?_, ?_, ?_⟩
  · rw [parseCSV, List.length_map, tailLines]
    cases h : jsSplitLines text <;> simp [h]
  · intro row hrow
    rcases List.mem_map.1 hrow with ⟨line, _, rfl⟩
    exact keysOf_mkRow _ _
  · intro hnd line _ i hname hi
    rw [mkRow_of_nodup _ _ hnd]
    refine lookup_enum_map _ _ (by rw [List.enum_map_snd]; exact hnd) i i hname ?_
    rw [List.get?_eq_getElem?, List.getElem?_enum, ← List.get?_eq_getElem?, hi]
    rfl

/-- Witness for C8 at the two-column text `"a,b\n1"`: the single record has
keys `["a","b"]`, cell `"1"` under `"a"`, and the missing trailing cell maps
to `""` under `"b"`. -/
theorem c8_parser_shape_witness :
    ((headersOf "a,b\n1").Nodup ∧ "1" ∈ tailLines "a,b\n1"
      ∧ (headersOf "a,b\n1").get? 1 = some "b")
    ∧ (mkRow (headersOf "a,b\n1") (splitCommaTrim "1")).lookup "b"
        = some ((splitCommaTrim "1").getD 1 "") :=
  ⟨⟨by decide, by decide, by decide⟩,
    (c8_parser_shape "a,b\n1").2.2 (by decide) "1" (by decide) 1 "b" (by decide)⟩

/-- Witness for C9 (amended) at a one-row dataset. -/
theorem c9_target_vector_witness :
    ([[("accident_risk", "0.25")]] : List (List (String × String))).get? 0
        = some [("accident_risk", "0.25")]
    ∧ ((buildY "accident_risk" [[("accident_risk", "0.25")]]).get? 0
          = some (numOfRaw (([("accident_risk", "0.25")] : Row).lookup "accident_risk"))
        ∧ numOfRaw (some "") = some (0 : ℚ)
        ∧ numOfRaw (some "abc") = none) :=
  ⟨by decide,
    c9_target_vector "accident_risk" [[("accident_risk", "0.25")]] 0
      [("accident_risk", "0.25")] rfl⟩

/-! ### Claim C2: permutation lemmas for the Fisher–Yates shuffle -/

theorem cons_set_perm {α : Type} :
    ∀ (t : List α) (k : ℕ) (v x : α), t.get? k = some x → (x :: t.set k v).Perm (v :: t) := by
  intro t
  induction t with
  | nil => intro k v x h; simp at h
  | cons a t' ih =>
    intro k v x h
    match k with
    | 0 =>
      simp only [List.get?] at h
      cases h
      exact List.Perm.swap v a t'
    | k' + 1 =>
      simp only [List.get?] at h
      show (x :: a :: t'.set k' v).Perm (v :: a :: t')
      exact ((List.Perm.swap a x _).trans ((ih k' v x h).cons a)).trans (List.Perm.swap v a t')

theorem set_set_perm_of_get {α : Type} :
    ∀ (a : List α) (i j : ℕ) (x y : α), a.get? i = some x → a.get? j = some y →
      ((a.set i y).set j x).Perm a := by
  intro a
  induction a with
  | nil => intro i j x y hi; simp at hi
  | cons h t ih =>
    intro i j x y hi hj
    match i, j with
    | 0, 0 =>
      simp only [List.get?] at hi hj
      cases hi; cases hj
      simp
    | 0, k + 1 =>
      simp only [List.get?] at hi hj
      obtain rfl : h = x := by injection hi
      exact cons_set_perm t k h y hj
    | m + 1, 0 =>
      simp only [List.get?] at hi hj
      obtain rfl : h = y := by injection hj
      exact cons_set_perm t m h x hi
    | m + 1, k + 1 =>
      simp only [List.get?] at hi hj
      exact (ih m k x y hi hj).cons h

theorem listSwap_perm {α : Type} (a : List α) (i j : ℕ) : (listSwap a i j).Perm a := by
  rw [listSwap]
  cases hi : a.get? i with
  | none => exact List.Perm.refl a
  | some x =>
    cases hj : a.get? j with
    | none => exact List.Perm.refl a
    | some y => exact set_set_perm_of_get a i j x y hi hj

theorem shuffleAux_perm {α : Type} : ∀ (n : ℕ) (s : ℕ) (a : List α),
    (shuffleAux s n a).Perm a := by
  intro n
  induction n with
  | zero => intro s a; exact List.Perm.refl a
  | succ n ih =>
    intro s a
    exact (ih (lcgNext s) (listSwap a (n + 1) (lcgNext s * (n + 2) / 2147483647))).trans
      (listSwap_perm a (n + 1) _)

theorem jsShuffle_perm {α : Type} (a : List α) (seed : ℕ) : (jsShuffle a seed).Perm a :=
  shuffleAux_perm (a.length - 1) seed a

theorem jsShuffle_length {α : Type} (a : List α) (seed : ℕ) :
    (jsShuffle a seed).length = a.length :=
  (jsShuffle_perm a seed).length_eq

/-! ### Claim C2: size bounds for the double-rounded floors -/

theorem log2Aux_spec : ∀ (fuel n : ℕ), n ≤ fuel → 1 ≤ n →
    2 ^ log2Aux fuel n ≤ n ∧ n < 2 ^ (log2Aux fuel n + 1) := by
  intro fuel
  induction fuel with
  | zero => intro n h1 h2; omega
  | succ fuel ih =>
    intro n hle h1
    by_cases h2 : n ≤ 1
    · have : n = 1 := by omega
      simp [log2Aux, this]
    · have hrec := ih (n / 2) (by omega) (by omega)
      have e : log2Aux (fuel + 1) n = 1 + log2Aux fuel (n / 2) := by
        rw [log2Aux, if_neg h2]
      constructor
      · rw [e]
        calc 2 ^ (1 + log2Aux fuel (n / 2)) = 2 * 2 ^ log2Aux fuel (n / 2) := by
              rw [pow_add, pow_one]
          _ ≤ 2 * (n / 2) := by omega
          _ ≤ n := by omega
      · rw [e]
        have : 2 ^ (1 + log2Aux fuel (n / 2) + 1) = 2 * 2 ^ (log2Aux fuel (n / 2) + 1) := by
          rw [← pow_succ']
          ring_nf
        omega

theorem natLog2_spec (n : ℕ) (h : 1 ≤ n) :
    2 ^ natLog2 n ≤ n ∧ n < 2 ^ (natLog2 n + 1) :=
  log2Aux_spec n n (le_refl n) h

theorem rne_le (x s : ℕ) : rne x s ≤ x / 2 ^ s + 1 := by
  rw [rne]
  split <;> [omega; (split <;> [omega; (split <;> omega)])]

theorem roundMantissa_le (p : ℕ) : roundMantissa p ≤ p + p / 2 ^ 52 := by
  rw [roundMantissa]
  split
  · omega
  · rename_i hp
    have hp53 : 2 ^ 53 ≤ p := by omega
    have h1 : 1 ≤ p := le_trans (by norm_num) hp53
    obtain ⟨hlo, hhi⟩ := natLog2_spec p h1
    have hb : 53 ≤ natLog2 p := by
      by_contra hc
      push_neg at hc
      have : natLog2 p + 1 ≤ 53 := by omega
      have := pow_le_pow_right (by norm_num : (1 : ℕ) ≤ 2) this
      omega
    have hstep : rne p (natLog2 p - 52) * 2 ^ (natLog2 p - 52)
        ≤ p + 2 ^ (natLog2 p - 52) := by
      have := rne_le p (natLog2 p - 52)
      have hmul := Nat.mul_le_mul_right (2 ^ (natLog2 p - 52)) this
      have hdm : p / 2 ^ (natLog2 p - 52) * 2 ^ (natLog2 p - 52) ≤ p :=
        Nat.div_mul_le_self p _
      calc rne p (natLog2 p - 52) * 2 ^ (natLog2 p - 52)
          ≤ (p / 2 ^ (natLog2 p - 52) + 1) * 2 ^ (natLog2 p - 52) := hmul
        _ = p / 2 ^ (natLog2 p - 52) * 2 ^ (natLog2 p - 52) + 2 ^ (natLog2 p - 52) := by ring
        _ ≤ p + 2 ^ (natLog2 p - 52) := by omega
    have hsm : 2 ^ (natLog2 p - 52) ≤ p / 2 ^ 52 := by
      have : 2 ^ (natLog2 p - 52) = 2 ^ natLog2 p / 2 ^ 52 := by
        rw [Nat.pow_div (by omega) (by norm_num)]
      rw [this]
      exact Nat.div_le_div_right hlo
    omega

theorem jsFloorMul_le (m n : ℕ) (hm : m ≤ 2 ^ 53) :
    roundMantissa (n * m) ≤ n * m + 2 * n := by
  have h1 := roundMantissa_le (n * m)
  have h2 : n * m / 2 ^ 52 ≤ 2 * n := by
    have hmono : n * m ≤ n * 2 ^ 53 := Nat.mul_le_mul_left n hm
    have hdiv : n * 2 ^ 53 / 2 ^ 52 = 2 * n := by
      rw [show n * 2 ^ 53 = 2 * n * 2 ^ 52 by ring]
      exact Nat.mul_div_cancel _ (by norm_num)
    have hd : n * m / 2 ^ 52 ≤ n * 2 ^ 53 / 2 ^ 52 := Nat.div_le_div_right hmono
    omega
  omega

theorem nTrain_nVal_le (n : ℕ) : nTrainJs n + nValJs n ≤ n := by
  have hA : roundMantissa (n * 6305039478318694) ≤ n * 6305039478318694 + 2 * n :=
    jsFloorMul_le 6305039478318694 n (by norm_num)
  have hB : roundMantissa (n * 5404319552844595) ≤ n * 5404319552844595 + 2 * n :=
    jsFloorMul_le 5404319552844595 n (by norm_num)
  have e1 : nTrainJs n = 4 * roundMantissa (n * 6305039478318694) / 2 ^ 55 := by
    rw [nTrainJs, jsFloorMul]
    rw [show (2 : ℕ) ^ 55 = 4 * 2 ^ 53 by norm_num]
    rw [Nat.mul_div_mul_left _ _ (by norm_num : (0 : ℕ) < 4)]
  have e2 : nValJs n = roundMantissa (n * 5404319552844595) / 2 ^ 55 := rfl
  rw [e1, e2]
  calc 4 * roundMantissa (n * 6305039478318694) / 2 ^ 55
          + roundMantissa (n * 5404319552844595) / 2 ^ 55
      ≤ (4 * roundMantissa (n * 6305039478318694)
          + roundMantissa (n * 5404319552844595)) / 2 ^ 55 :=
        Nat.add_div_le_add_div _ _ _
    _ ≤ n * 30624477466119381 / 2 ^ 55 := by
        apply Nat.div_le_div_right
        calc 4 * roundMantissa (n * 6305039478318694)
                + roundMantissa (n * 5404319552844595)
            ≤ 4 * (n * 6305039478318694 + 2 * n) + (n * 5404319552844595 + 2 * n) := by
              omega
          _ = n * 30624477466119381 := by ring
    _ ≤ n := by
        calc n * 30624477466119381 / 2 ^ 55 ≤ n * 2 ^ 55 / 2 ^ 55 := by
              apply Nat.div_le_div_right
              exact Nat.mul_le_mul_left n (by norm_num)
          _ = n := Nat.mul_div_cancel n (by norm_num)

/-! ### Claim C2: split shape -/

theorem prepareSplit_concat (n seed : ℕ) :
    (prepareSplit n seed).1 ++ (prepareSplit n seed).2.1 ++ (prepareSplit n seed).2.2
      = jsShuffle (List.range n) seed := by
  rw [prepareSplit]
  rw [← List.drop_drop, List.append_assoc, List.take_append_drop, List.take_append_drop]

theorem prepareSplit_train_length (n seed : ℕ) :
    (prepareSplit n seed).1.length = nTrainJs n := by
  rw [prepareSplit]
  show (List.take _ _).length = _
  rw [List.length_take, jsShuffle_length, List.length_range]
  have := nTrain_nVal_le n
  omega

theorem prepareSplit_val_length (n seed : ℕ) :
    (prepareSplit n seed).2.1.length = nValJs n := by
  rw [prepareSplit]
  show (List.take _ (List.drop _ _)).length = _
  rw [List.length_take, List.length_drop, jsShuffle_length, List.length_range]
  have := nTrain_nVal_le n
  omega

theorem prepareSplit_test_length (n seed : ℕ) :
    (prepareSplit n seed).2.2.length = n - nTrainJs n - nValJs n := by
  rw [prepareSplit]
  show (List.drop _ _).length = _
  rw [List.length_drop, jsShuffle_length, List.length_range]
  omega

/-- Counterexample for C2: at `N = 170` the code's train size is
`Math.floor(170 * 0.7) = 118` (the double product `170 * 0.7` is
`118.99999999999999…`), while the claim's exact `⌊0.7·170⌋` is `119`. -/
theorem c2_split_counterexample :
    (prepareSplit 170 2025).1.length = 118 ∧ (118 : ℕ) ≠ 7 * 170 / 10 := by
  constructor
  · rw [prepareSplit_train_length]
    decide
  · decide

/-- Claim C2 (amended): for every row count and seed the split is a
pairwise-disjoint partition of `[0, N)` (the three slices concatenate to a
permutation of `range N`, with no duplicates), the shuffle being the LCG
(multiplier 16807, modulus 2147483647) driving a Fisher–Yates pass, and the
sizes are the JS double floors `Math.floor(N*0.7)` and `Math.floor(N*0.15)`
(which differ from the exact `⌊0.7N⌋`/`⌊0.15N⌋` for some `N`, e.g. `N=170`);
determinism is definitional in the embedding (`prepareSplit` is a pure
function of `(N, seed)`). -/
theorem c2_split_partition (n seed : ℕ) :
    ((prepareSplit n seed).1 ++ (prepareSplit n seed).2.1 ++ (prepareSplit n seed).2.2).Perm
        (List.range n)
    ∧ ((prepareSplit n seed).1 ++ (prepareSplit n seed).2.1
        ++ (prepareSplit n seed).2.2).Nodup
    ∧ (prepareSplit n seed).1.Disjoint (prepareSplit n seed).2.1
    ∧ (prepareSplit n seed).1.Disjoint (prepareSplit n seed).2.2
    ∧ (prepareSplit n seed).2.1.Disjoint (prepareSplit n seed).2.2
    ∧ (prepareSplit n seed).1.length = nTrainJs n
    ∧ (prepareSplit n seed).2.1.length = nValJs n
    ∧ (prepareSplit n seed).2.2.length = n - nTrainJs n - nValJs n
    ∧ nTrainJs n + nValJs n ≤ n := by
  have hperm : ((prepareSplit n seed).1 ++ (prepareSplit n seed).2.1
      ++ (prepareSplit n seed).2.2).Perm (List.range n) := by
    rw [prepareSplit_concat]
    exact jsShuffle_perm (List.range n) seed
  have hnd : ((prepareSplit n seed).1 ++ (prepareSplit n seed).2.1
      ++ (prepareSplit n seed).2.2).Nodup :=
    hperm.symm.nodup (List.nodup_range n)
  rw [List.append_assoc, List.nodup_append] at hnd
  obtain ⟨hnd1, hnd23, hdis1⟩ := hnd
  rw [List.nodup_append] at hnd23
  obtain ⟨hnd2, hnd3, hdis23⟩ := hnd23
  refine ⟨hperm, ?_, ?_, ?_, hdis23,
    prepareSplit_train_length n seed, prepareSplit_val_length n seed,
    prepareSplit_test_length n seed, nTrain_nVal_le n⟩
  · rw [List.append_assoc, List.nodup_append]
    exact ⟨hnd1, List.nodup_append.2 ⟨hnd2, hnd3, hdis23⟩, hdis1⟩
  · intro a ha hb
    exact hdis1 ha (List.mem_append_left _ hb)
  · intro a ha hb
    exact hdis1 ha (List.mem_append_right _ hb)

/-! ### Claim C6 -/

/-- A loader state with a previously built encoder table but no schema (for
example after a failed reload): calling `prepareMatrices` on it throws at
`this.schema.features` — after `this.encoders = {}` has already run. -/
def brokenState : DLState :=
  { raw := none, schema := none, encoders := [("road_type", ["urban"])],
    scalers := none, X := none, y := none,
    split := { idxTrain := [], idxVal := [], idxTest := [] } }

/-- Counterexample for C6: a failed `prepareMatrices` call destroys the
previously built encoder table — `this.encoders = {}` runs at entry, before
the first possible throw, so the post-failure state differs from the
pre-call state. -/
theorem c6_prepare_counterexample :
    (prepareMatricesSt "minmax" 2025 brokenState).2 = false
    ∧ (prepareMatricesSt "minmax" 2025 brokenState).1.encoders ≠ brokenState.encoders := by
  refine ⟨rfl, ?_⟩
  show ([] : List (String × List String)) ≠ [("road_type", ["urban"])]
  simp

/-- Claim C6 (amended): when `prepareMatrices` fails partway, `X`, `y`, the
split indices and the scaler statistics are left exactly as before the call
(both failure points — missing schema at line 177 and missing raw rows at
line 190 — precede their assignments), but the encoder table is not: it is
cleared at entry and rebuilt before the second failure point, so a failed
prepare can leave `this.encoders` emptied or rebuilt. -/
theorem c6_prepare_partial_atomicity (t : String) (seed : ℕ) (s : DLState)
    (h : (prepareMatricesSt t seed s).2 = false) :
    (prepareMatricesSt t seed s).1.X = s.X
    ∧ (prepareMatricesSt t seed s).1.y = s.y
    ∧ (prepareMatricesSt t seed s).1.split = s.split
    ∧ (prepareMatricesSt t seed s).1.scalers = s.scalers := by
  cases hsch : s.schema with
  | none => simp [prepareMatricesSt, hsch]
  | some sch =>
    cases hraw : s.raw with
    | none => simp [prepareMatricesSt, hsch, hraw]
    | some rows =>
      exfalso
      rw [prepareMatricesSt] at h
      simp [hsch, hraw] at h

/-- Witness for C6 (amended) at the concrete broken state. -/
theorem c6_prepare_partial_atomicity_witness :
    (prepareMatricesSt "minmax" 2025 brokenState).2 = false
    ∧ ((prepareMatricesSt "minmax" 2025 brokenState).1.X = brokenState.X
      ∧ (prepareMatricesSt "minmax" 2025 brokenState).1.y = brokenState.y
      ∧ (prepareMatricesSt "minmax" 2025 brokenState).1.split = brokenState.split
      ∧ (prepareMatricesSt "minmax" 2025 brokenState).1.scalers = brokenState.scalers) :=
  ⟨rfl, c6_prepare_partial_atomicity "minmax" 2025 brokenState rfl⟩

/-! ### Claim C10 -/

theorem lookup_map_mk (cols : List String) (g : String → Feature) (k : String)
    (hk : k ∈ cols) :
    (cols.map (fun c => (c, g c))).lookup k = some (g k) := by
  induction cols with
  | nil => simp at hk
  | cons c rest ih =>
    by_cases hc : k = c
    · subst hc
      simp [List.lookup]
    · have hb : (k == c) = false := beq_eq_false_iff_ne.2 hc
      simp only [List.map_cons, List.lookup, hb]
      exact ih (by rcases List.mem_cons.1 hk with h | h; exact absurd h hc; exact h)

theorem encodeRow_get_colOffset (feats : List (String × Feature)) (r : Row)
    (k : String) (f : Feature) (hf : feats.lookup k = some f)
    (hw : 0 < featWidth f) :
    (encodeRow feats r).get? (colOffset feats k) = (encodeFeat r k f).get? 0 := by
  induction feats with
  | nil => simp [List.lookup] at hf
  | cons kf rest ih =>
    obtain ⟨k1, f1⟩ := kf
    by_cases hk : k1 = k
    · subst hk
      simp only [List.lookup, beq_self_eq_true] at hf
      cases hf
      rw [colOffset, if_pos rfl, encodeRow, List.flatMap_cons,
        List.get?_append (by rw [encodeFeat_length]; exact hw)]
    · have hb : (k == k1) = false := beq_eq_false_iff_ne.2 (fun e => hk e.symm)
      simp only [List.lookup, hb] at hf
      rw [colOffset, if_neg hk, encodeRow, List.flatMap_cons]
      rw [List.get?_append_right (by rw [encodeFeat_length]; omega)]
      rw [encodeFeat_length]
      rw [show featWidth f1 + colOffset rest k - featWidth f1 = colOffset rest k by omega]
      exact ih hf

/-- Claim C10: a column whose observed values all lowercase to
`"true"`/`"false"` is recast by schema inference to a boolean feature with
canonical values `["True","False"]`; encoding then compares each raw value
case-sensitively with the string `"True"`, so when no raw value is exactly
`"True"` (e.g. lowercase `"true"`), every row of that column encodes to `0`
regardless of its truth value. -/
theorem c10_boolean_case_bug (r0 : Row) (rest : List Row) (k : String)
    (htgt : (r0.lookup "accident_risk").isSome = true)
    (hk : k ∈ (keysOf r0).filter (fun x => x != "accident_risk"))
    (hclass : classifyCol k (sampleOf (r0 :: rest) k) ≠ FType.numeric)
    (hlow : ((obsVals (r0 :: rest) k).map (fun v => lowerStr v)).all
        (fun v => v == "true" || v == "false") = true)
    (hTrue : ∀ r ∈ r0 :: rest, strOf (r.lookup k) ≠ "True") :
    (getSchema (inferSchema (r0 :: rest))).features.lookup k
        = some { type := FType.boolean, stats := none, values := ["True", "False"] }
    ∧ ∀ r ∈ r0 :: rest,
        (encodeRow (getSchema (inferSchema (r0 :: rest))).features r).get?
            (colOffset (getSchema (inferSchema (r0 :: rest))).features k)
          = some (some (0 : ℚ)) := by
  have hNone : (r0.lookup "accident_risk").isNone = false := by
    cases hopt : r0.lookup "accident_risk" <;> simp_all
  have hsch : getSchema (inferSchema (r0 :: rest)) =
      { features := ((keysOf r0).filter (fun x => x != "accident_risk")).map (fun col =>
          (col, finalizeFeature (r0 :: rest) col
            (classifyCol col (sampleOf (r0 :: rest) col)))),
        target := "accident_risk" } := by
    rw [inferSchema]
    rw [hNone]
    rfl
  have hfeat : finalizeFeature (r0 :: rest) k (classifyCol k (sampleOf (r0 :: rest) k))
      = { type := FType.boolean, stats := none, values := ["True", "False"] } := by
    cases hcl : classifyCol k (sampleOf (r0 :: rest) k) with
    | numeric => exact absurd hcl hclass
    | boolean =>
      simp only [finalizeFeature]
      rw [if_pos hlow]
    | categorical =>
      simp only [finalizeFeature]
      rw [if_pos hlow]
  have hlook : (getSchema (inferSchema (r0 :: rest))).features.lookup k
      = some { type := FType.boolean, stats := none, values := ["True", "False"] } := by
    rw [hsch]
    show (((keysOf r0).filter (fun x => x != "accident_risk")).map (fun col =>
        (col, finalizeFeature (r0 :: rest) col
          (classifyCol col (sampleOf (r0 :: rest) col))))).lookup k = _
    rw [lookup_map_mk _ _ k hk, hfeat]
  refine ⟨hlook, ?_⟩
  intro r hr
  rw [encodeRow_get_colOffset _ r k _ hlook (by decide)]
  rw [encodeFeat]
  show some (some (if strOf (r.lookup k) = "True" then (1 : ℚ) else 0)) = _
  rw [if_neg (hTrue r hr)]

/-- Witness for C10: a two-row dataset whose `flag` column holds the exact
strings `"true"` and `"false"`; inference recasts it to boolean with values
`["True","False"]` and both rows encode to `0` in that column. -/
theorem c10_boolean_case_bug_witness :
    ((([("flag", "true"), ("accident_risk", "0.5")] : Row).lookup
          "accident_risk").isSome = true
      ∧ "flag" ∈ (keysOf [("flag", "true"), ("accident_risk", "0.5")]).filter
          (fun x => x != "accident_risk")
      ∧ classifyCol "flag" (sampleOf
          [[("flag", "true"), ("accident_risk", "0.5")],
           [("flag", "false"), ("accident_risk", "0.9")]] "flag") ≠ FType.numeric
      ∧ ((obsVals [[("flag", "true"), ("accident_risk", "0.5")],
            [("flag", "false"), ("accident_risk", "0.9")]] "flag").map
          (fun v => lowerStr v)).all (fun v => v == "true" || v == "false") = true
      ∧ ∀ r ∈ ([[("flag", "true"), ("accident_risk", "0.5")],
            [("flag", "false"), ("accident_risk", "0.9")]] : List Row),
          strOf (r.lookup "flag") ≠ "True")
    ∧ ((getSchema (inferSchema [[("flag", "true"), ("accident_risk", "0.5")],
          [("flag", "false"), ("accident_risk", "0.9")]])).features.lookup "flag"
        = some { type := FType.boolean, stats := none, values := ["True", "False"] }
      ∧ ∀ r ∈ ([[("flag", "true"), ("accident_risk", "0.5")],
            [("flag", "false"), ("accident_risk", "0.9")]] : List Row),
          (encodeRow (getSchema (inferSchema [[("flag", "true"), ("accident_risk", "0.5")],
              [("flag", "false"), ("accident_risk", "0.9")]])).features r).get?
              (colOffset (getSchema (inferSchema [[("flag", "true"), ("accident_risk", "0.5")],
                [("flag", "false"), ("accident_risk", "0.9")]])).features "flag")
            = some (some (0 : ℚ))) :=
  ⟨⟨by decide, by decide, by with_unfolding_all decide, by decide, by decide⟩,
    c10_boolean_case_bug [("flag", "true"), ("accident_risk", "0.5")]
      [[("flag", "false"), ("accident_risk", "0.9")]] "flag"
      (by decide) (by decide) (by with_unfolding_all decide) (by decide) (by decide)⟩

/-! ### Claim C1: indexing lemmas for the scaling pass -/

theorem scaleRowAux_get? (t : String) (sf : ℕ → ColStats) (nIdx : List ℕ) :
    ∀ (row : List (Option ℚ)) (c0 c : ℕ),
      (scaleRowAux t sf nIdx c0 row).get? c
        = (row.get? c).map (fun cell =>
            if c0 + c ∈ nIdx then applyScaleCell t (sf (c0 + c)) cell
            else ((cell.getD 0 : ℚ) : ℝ)) := by
  intro row
  induction row with
  | nil => intro c0 c; simp [scaleRowAux]
  | cons cell rest ih =>
    intro c0 c
    match c with
    | 0 => simp [scaleRowAux, List.get?]
    | c' + 1 =>
      show (scaleRowAux t sf nIdx (c0 + 1) rest).get? c' = _
      rw [ih (c0 + 1) c']
      have e : c0 + 1 + c' = c0 + (c' + 1) := by omega
      rw [e]
      rfl

theorem numericColIdxAux_shift (feats : List (String × Feature)) :
    ∀ p : ℕ, numericColIdxAux feats p = (numericColIdxAux feats 0).map (fun d => d + p) := by
  induction feats with
  | nil => intro p; rfl
  | cons kf rest ih =>
    intro p
    cases htype : kf.2.type
    all_goals simp only [numericColIdxAux, htype, Nat.zero_add]
    · -- numeric
      rw [ih (p + 1), ih 1, List.map_cons, List.map_map, Nat.zero_add]
      congr 1
      exact List.map_congr_left (fun d _ => by show d + (p + 1) = d + 1 + p; omega)
    · -- boolean
      rw [ih (p + 1), ih 1, List.map_cons, List.map_map, Nat.zero_add]
      congr 1
      exact List.map_congr_left (fun d _ => by show d + (p + 1) = d + 1 + p; omega)
    · -- categorical
      rw [ih (p + kf.2.values.length), ih kf.2.values.length, List.map_map]
      exact List.map_congr_left (fun d _ => by
        show d + (p + kf.2.values.length) = d + kf.2.values.length + p
        omega)

theorem mem_numericColIdx_succ (feats : List (String × Feature)) (w c : ℕ) :
    w + c ∈ (numericColIdxAux feats 0).map (fun d => d + w) ↔ c ∈ numericColIdxAux feats 0 := by
  constructor
  · intro h
    rcases List.mem_map.1 h with ⟨d, hd, he⟩
    have : d = c := by omega
    exact this ▸ hd
  · intro h
    exact List.mem_map.2 ⟨c, h, by omega⟩

theorem sumWidths_cons (kf : String × Feature) (rest : List (String × Feature)) :
    sumWidths (kf :: rest) = featWidth kf.2 + sumWidths rest := by
  simp [sumWidths]

theorem encodeRow_outside_some (r : Row) :
    ∀ (feats : List (String × Feature)) (c : ℕ), c < sumWidths feats →
      c ∉ numericColIdx feats → ∃ q : ℚ, (encodeRow feats r).get? c = some (some q) := by
  intro feats
  induction feats with
  | nil => intro c hc; simp [sumWidths] at hc
  | cons kf rest ih =>
    intro c hc hn
    rw [numericColIdx, numericColIdxAux] at hn
    rw [sumWidths_cons] at hc
    cases htype : kf.2.type
    · -- numeric: the head contributes one scaled column, so c ≥ 1 here
      simp only [htype, Nat.zero_add] at hn
      match c with
      | 0 => exact absurd (List.mem_cons_self 0 _) hn
      | c' + 1 =>
        have hn' : c' ∉ numericColIdx rest := by
          intro hmem
          apply hn
          refine List.mem_cons.2 (Or.inr ?_)
          rw [numericColIdxAux_shift rest 1]
          exact List.mem_map.2 ⟨c', hmem, by omega⟩
        have hc' : c' < sumWidths rest := by
          simp only [featWidth, htype] at hc
          omega
        obtain ⟨q, hq⟩ := ih c' hc' hn'
        refine ⟨q, ?_⟩
        rw [encodeRow, List.flatMap_cons,
          List.get?_append_right (by simp only [encodeFeat_length, featWidth, htype]; omega)]
        simp only [encodeFeat_length, featWidth, htype]
        exact hq
    · -- boolean: same shape as numeric
      simp only [htype, Nat.zero_add] at hn
      match c with
      | 0 => exact absurd (List.mem_cons_self 0 _) hn
      | c' + 1 =>
        have hn' : c' ∉ numericColIdx rest := by
          intro hmem
          apply hn
          refine List.mem_cons.2 (Or.inr ?_)
          rw [numericColIdxAux_shift rest 1]
          exact List.mem_map.2 ⟨c', hmem, by omega⟩
        have hc' : c' < sumWidths rest := by
          simp only [featWidth, htype] at hc
          omega
        obtain ⟨q, hq⟩ := ih c' hc' hn'
        refine ⟨q, ?_⟩
        rw [encodeRow, List.flatMap_cons,
          List.get?_append_right (by simp only [encodeFeat_length, featWidth, htype]; omega)]
        simp only [encodeFeat_length, featWidth, htype]
        exact hq
    · -- categorical: inside the one-hot block every cell is `some`
      simp only [htype, Nat.zero_add] at hn
      by_cases hin : c < kf.2.values.length
      · have hv : kf.2.values.get? c = some (kf.2.values.get ⟨c, hin⟩) := List.get?_eq_get hin
        refine ⟨if strOf (r.lookup kf.1) = kf.2.values.get ⟨c, hin⟩ then 1 else 0, ?_⟩
        rw [encodeRow, List.flatMap_cons,
          List.get?_append (by simp only [encodeFeat_length, featWidth, htype]; exact hin)]
        simp only [encodeFeat, htype, List.get?_map, hv]
        rfl
      · push_neg at hin
        obtain ⟨c', rfl⟩ : ∃ c', c = kf.2.values.length + c' :=
          ⟨c - kf.2.values.length, by omega⟩
        have hn' : c' ∉ numericColIdx rest := by
          intro hmem
          apply hn
          rw [numericColIdxAux_shift rest kf.2.values.length]
          exact List.mem_map.2 ⟨c', hmem, by omega⟩
        have hc' : c' < sumWidths rest := by
          simp only [featWidth, htype] at hc
          omega
        obtain ⟨q, hq⟩ := ih c' hc' hn'
        refine ⟨q, ?_⟩
        rw [encodeRow, List.flatMap_cons,
          List.get?_append_right (by simp only [encodeFeat_length, featWidth, htype]; omega)]
        simp only [encodeFeat_length, featWidth, htype]
        rw [show kf.2.values.length + c' - kf.2.values.length = c' by omega]
        exact hq

theorem mem_finiteCol (X : List (List (Option ℚ))) (i c : ℕ) (row : List (Option ℚ)) (v : ℚ)
    (hX : X.get? i = some row) (hrow : row.get? c = some (some v)) :
    v ∈ finiteCol X c := by
  rw [finiteCol]
  refine List.mem_filterMap.2 ⟨row, List.get?_mem hX, ?_⟩
  rw [List.getD_eq_get?, hrow]
  rfl

theorem jsMinQ_eq_min (l : List ℚ) : jsMinQ l = (l.min?).getD 0 := by
  cases l with
  | nil => rfl
  | cons h t => rw [jsMinQ, List.min?_cons']; rfl

theorem jsMaxQ_eq_max (l : List ℚ) : jsMaxQ l = (l.max?).getD 0 := by
  cases l with
  | nil => rfl
  | cons h t => rw [jsMaxQ, List.max?_cons']; rfl

theorem applyScale_fit_eq_spec (t : String) (ht : t = "minmax" ∨ t = "standard")
    (X : List (List (Option ℚ))) (c : ℕ) (cell : Option ℚ)
    (h : cell = none ∨ ∃ v, cell = some v ∧ v ∈ finiteCol X c) :
    applyScaleCell t (fitColStats X c) cell = specScaleCell t (finiteCol X c) cell := by
  rcases h with rfl | ⟨v, rfl, hv⟩
  · rcases ht with rfl | rfl <;> rfl
  · have hlen : 1 ≤ (finiteCol X c).length := List.length_pos.2 (by
      intro h0
      rw [h0] at hv
      simp at hv)
    have hmax : max 1 (finiteCol X c).length = (finiteCol X c).length := by omega
    rcases ht with rfl | rfl
    · -- minmax
      simp only [applyScaleCell, specScaleCell, fitColStats, jsMinQ_eq_min, jsMaxQ_eq_max,
        if_pos]
    · -- standard
      simp only [applyScaleCell, specScaleCell, fitColStats]
      rw [if_pos trivial, hmax, jsMinQ_eq_min, jsMaxQ_eq_max]

/-- Claim C1: for every encoded matrix built by `prepareMatrices` and every
encoded column derived from a numeric or boolean feature (an index of the
`numericColIdx` walk), scaling replaces each finite cell by
`(v - min)/(max - min or 1)` under the minmax kind and `(v - mean)/(std or
1)` under the standard kind, with the statistics fitted over the finite
values of that column across all rows, and replaces every non-finite cell by
exactly `0` (both captured by `specScaleCell`, written from the spec);
every cell of a column derived from a categorical feature is a finite value
left unchanged by scaling. -/
theorem c1_scaler_formulas (t : String) (feats : List (String × Feature)) (rows : List Row)
    (i c : ℕ) (cell : Option ℚ)
    (ht : t = "minmax" ∨ t = "standard")
    (hcell : cellAt (buildX feats rows) i c = some cell) :
    (c ∈ numericColIdx feats →
      cellAt (scaleX t feats (buildX feats rows)) i c
        = some (specScaleCell t (finiteCol (buildX feats rows) c) cell))
    ∧ (c ∉ numericColIdx feats →
        cell.isSome = true
        ∧ cellAt (scaleX t feats (buildX feats rows)) i c
            = some ((cell.getD 0 : ℚ) : ℝ)) := by
  rw [cellAt] at hcell
  obtain ⟨row, hXi, hrow⟩ := Option.bind_eq_some.1 hcell
  have hscaled : cellAt (scaleX t feats (buildX feats rows)) i c
      = some (if c ∈ numericColIdx feats
              then applyScaleCell t (fitColStats (buildX feats rows) c) cell
              else ((cell.getD 0 : ℚ) : ℝ)) := by
    rw [cellAt, scaleX, List.get?_map, hXi]
    show (scaleRowAux t (fun c => fitColStats (buildX feats rows) c)
        (numericColIdx feats) 0 row).get? c = _
    rw [scaleRowAux_get?, hrow]
    simp only [Nat.zero_add]
    rfl
  obtain ⟨r, hri, hrenc⟩ := Option.map_eq_some'.1 (by
    rw [buildX, List.get?_map] at hXi
    exact hXi)
  constructor
  · intro hmem
    rw [hscaled, if_pos hmem]
    refine congrArg some (applyScale_fit_eq_spec t ht (buildX feats rows) c cell ?_)
    cases cell with
    | none => exact Or.inl rfl
    | some v => exact Or.inr ⟨v, rfl, mem_finiteCol (buildX feats rows) i c row v hXi hrow⟩
  · intro hnot
    obtain ⟨hlt, _⟩ := List.get?_eq_some.1 hrow
    have hwlt : c < sumWidths feats := by
      rw [← hrenc, encodeRow_length] at hlt
      exact hlt
    obtain ⟨q, hq⟩ := encodeRow_outside_some r feats c hwlt hnot
    rw [hrenc, hrow] at hq
    obtain rfl : cell = some q := by injection hq
    exact ⟨rfl, by rw [hscaled, if_neg hnot]⟩

/-- Witness for C1 at the one-column dataset with cells `1` and `3` under
minmax scaling (the non-membership conjunct instantiates vacuously). -/
theorem c1_scaler_formulas_witness :
    (("minmax" = "minmax" ∨ "minmax" = "standard")
      ∧ cellAt (buildX [("a", ⟨FType.numeric, none, []⟩)] [[("a", "1")], [("a", "3")]]) 0 0
          = some (some (1 : ℚ)))
    ∧ ((0 ∈ numericColIdx [("a", ⟨FType.numeric, none, []⟩)] →
          cellAt (scaleX "minmax" [("a", ⟨FType.numeric, none, []⟩)]
              (buildX [("a", ⟨FType.numeric, none, []⟩)] [[("a", "1")], [("a", "3")]])) 0 0
            = some (specScaleCell "minmax"
                (finiteCol (buildX [("a", ⟨FType.numeric, none, []⟩)]
                  [[("a", "1")], [("a", "3")]]) 0) (some 1)))
        ∧ (0 ∉ numericColIdx [("a", ⟨FType.numeric, none, []⟩)] →
            (some (1 : ℚ)).isSome = true
            ∧ cellAt (scaleX "minmax" [("a", ⟨FType.numeric, none, []⟩)]
                (buildX [("a", ⟨FType.numeric, none, []⟩)] [[("a", "1")], [("a", "3")]])) 0 0
              = some (((some (1 : ℚ)).getD 0 : ℚ) : ℝ))) :=
  ⟨⟨Or.inl rfl, by with_unfolding_all decide⟩,
    c1_scaler_formulas "minmax" [("a", ⟨FType.numeric, none, []⟩)]
      [[("a", "1")], [("a", "3")]] 0 0 (some 1) (Or.inl rfl)
      (by with_unfolding_all decide)⟩

end RoadRisk
